import Mathlib

/-!
Verification of the PCK binary scanner, index remapper and OBJ exporter of
the Midnight Club 3 PKG visualizer.

The definitions below are a shallow embedding of `PCKParser.find_vertex_patterns`,
`PCKParser.parse` and `MainWindow.export_to_obj` from `src/translated.py`.
Byte buffers are `List Nat` (Python `bytes`: entries are 0..255 in real runs;
nothing below depends on the upper bound).  Machine integers decoded with
`struct.unpack('<h', ...)` are modelled as mathematical integers with the
explicit two's-complement adjustment.  Fields holding only diagnostics that no
claim touches (`hex_vertices`, `hex_uvs`, `hex_faces`, the random display
`color`) are omitted; everything the control flow reads is embedded.
-/

/-- `data[i]` on a Python `bytes`; every use below is guarded by the same
bounds checks the source performs, so the default value is never observable
on the paths the source exercises. -/
def byteAt (d : List Nat) (i : Nat) : Nat := d.getD i 0

/-- `data[i : i+n]` on a Python `bytes`: shorter than `n` near the end. -/
def extract (d : List Nat) (i n : Nat) : List Nat := (d.drop i).take n

/-- Little-endian signed 16-bit decode of two bytes, as `struct.unpack('<h', ...)`. -/
def le16 (lo hi : Nat) : Int :=
  let u := lo + 256 * hi
  if u < 32768 then (u : Int) else (u : Int) - 65536

/-- The vertex loop of `find_vertex_patterns`: `XX` vertices of 6 bytes each
starting at `vs`, each three little-endian signed 16-bit words. -/
def decodeVertices (d : List Nat) (vs XX : Nat) : List (Int × Int × Int) :=
  (List.range XX).map fun k =>
    (le16 (byteAt d (vs + 6 * k)) (byteAt d (vs + 6 * k + 1)),
     le16 (byteAt d (vs + 6 * k + 2)) (byteAt d (vs + 6 * k + 3)),
     le16 (byteAt d (vs + 6 * k + 4)) (byteAt d (vs + 6 * k + 5)))

/-- The UV loop: `XX` pairs of 4 bytes each starting at `us`. -/
def decodeUVs (d : List Nat) (us XX : Nat) : List (Int × Int) :=
  (List.range XX).map fun k =>
    (le16 (byteAt d (us + 4 * k)) (byteAt d (us + 4 * k + 1)),
     le16 (byteAt d (us + 4 * k + 2)) (byteAt d (us + 4 * k + 3)))

/-- One decoded face record: the classification byte and the implied 1-based
local index triple. -/
structure Face where
  indices : Nat × Nat × Nat
  byte : Nat
deriving DecidableEq, Repr

/-- The face loop of `find_vertex_patterns`, iterating `j in range(0, (XX-2)*3, 3)`
(empty for `XX ≤ 2` since the Python range bound is then non-positive), with
`k = j / 3` running over `0, …, XX-3`.  The k-th record reads the byte at
`fs + 3*k`, has indices `(k+1, k+2, k+3)`, is skipped when `k+3 > XX`, and is
classified active on an even byte, inactive on an odd one.  `k` is the current
index and the second argument the number of records still to read. -/
def decodeFacesFrom (d : List Nat) (fs XX : Nat) : Nat → Nat → List Face × List Face
  | _, 0 => ([], [])
  | k, n + 1 =>
    if k + 3 > XX then decodeFacesFrom d fs XX (k + 1) n
    else if byteAt d (fs + 3 * k) % 2 = 0 then
      (⟨(k + 1, k + 2, k + 3), byteAt d (fs + 3 * k)⟩ :: (decodeFacesFrom d fs XX (k + 1) n).1,
       (decodeFacesFrom d fs XX (k + 1) n).2)
    else
      ((decodeFacesFrom d fs XX (k + 1) n).1,
       ⟨(k + 1, k + 2, k + 3), byteAt d (fs + 3 * k)⟩ :: (decodeFacesFrom d fs XX (k + 1) n).2)

/-- All `XX - 2` face records starting at `fs` (none when `XX ≤ 2`). -/
def decodeFaces (d : List Nat) (fs XX : Nat) : List Face × List Face :=
  decodeFacesFrom d fs XX 0 (XX - 2)

/-- One of the two magic-byte grammars of `find_vertex_patterns`. -/
structure Grammar where
  magic : List Nat
  face_magic : List Nat
  uv_magic : List Nat
deriving DecidableEq, Repr

/-- `pattern1`: vertex header `EE 00 XX 69`, faces `9A 00 XX 6A`, UVs `C4 00 XX 65`. -/
def pattern1 : Grammar := ⟨[0xEE, 0x00], [0x9A, 0x00], [0xC4, 0x00]⟩

/-- `pattern2`: vertex header `1B 02 XX 69`, faces `C7 01 XX 6A`, UVs `F1 01 XX 65`. -/
def pattern2 : Grammar := ⟨[0x1B, 0x02], [0xC7, 0x01], [0xF1, 0x01]⟩

/-- One located and decoded group (the dict built by `find_vertex_patterns`). -/
structure VGroup where
  pattern : String
  start : Nat
  XX : Nat
  vertices : List (Int × Int × Int)
  uvs : List (Int × Int)
  active_faces : List Face
  inactive_faces : List Face
  vertices_offset : Nat
  vertices_end : Nat
  faces_offset : Nat
deriving DecidableEq, Repr

/-- `bytes.find(pat, start)` scanned position by position; the fuel argument
only bounds the recursion and `findFrom` below always supplies enough of it
to reach the first position where a full match no longer fits. -/
def findFromAux (d pat : List Nat) : Nat → Nat → Option Nat
  | 0, _ => none
  | fuel + 1, start =>
    if start + pat.length > d.length then none
    else if extract d start pat.length = pat then some start
    else findFromAux d pat fuel (start + 1)

/-- `self.data.find(pat, start)`: the least `p ≥ start` where `pat` occurs, if any. -/
def findFrom (d pat : List Nat) (start : Nat) : Option Nat :=
  findFromAux d pat (d.length + 1 - start) start

/-- The UV step of `find_vertex_patterns`: immediately after the vertex block
(ending at `vend`), if the next 4 bytes equal `uv_magic ++ [XX, 0x65]`, decode
`XX` UV pairs (a truncated UV block is a fatal corruption error); otherwise the
group has no UVs and the position does not advance.  Returns the UV list and
`pos_after_uv`. -/
def uvScan (g : Grammar) (d : List Nat) (XX vend : Nat) :
    Except String (List (Int × Int) × Nat) :=
  if vend + 4 ≤ d.length then
    if extract d vend 4 = g.uv_magic ++ [XX, 0x65] then
      if vend + 4 + XX * 4 > d.length then
        Except.error "Corrupted or incomplete PCK file (UVs)."
      else
        Except.ok (decodeUVs d (vend + 4) XX, vend + 4 + XX * 4)
    else Except.ok ([], vend)
  else Except.ok ([], vend)

/-- The body of the `for pattern_name, pattern_info in patterns.items()` loop at
one grammar and one scan position `i` (only entered by the scanner when
`i < len(data) - 4`).  `none` means this grammar does not match at `i`
(prefix mismatch, count byte above `0x2A`, or missing `0x69` terminator) and
the loop falls through; `some (error e)` is a fatal parse error; `some (ok
(group, next))` is a decoded group together with the next cursor position.

Python computes `faces_bytes_count = (XX - 2) * 3` as a possibly negative
integer; both the bound check `faces_start + faces_bytes_count > len(data)`
and the cursor jump `i = faces_start + faces_bytes_count` therefore use the
value `pos_faces + 4 + 6 + 3*(XX - 2) = pos_faces + 4 + 3*XX`, which is how
they are written below (exact for every `XX ≥ 0` including `XX < 2`). -/
def tryPattern (nm : String) (g : Grammar) (d : List Nat) (i : Nat) :
    Option (Except String (VGroup × Nat)) :=
  if extract d i 2 = g.magic then
    -- `XX = data[i+2]`; the Python range test `0x00 <= XX <= 0x2A` has a
    -- vacuous lower half on a byte.
    if byteAt d (i + 2) ≤ 0x2A then
      if byteAt d (i + 3) = 0x69 then
        if i + 4 + byteAt d (i + 2) * 6 > d.length then
          some (Except.error "Corrupted or incomplete PCK file (vertices).")
        else
          match uvScan g d (byteAt d (i + 2)) (i + 4 + byteAt d (i + 2) * 6) with
          | Except.error e => some (Except.error e)
          | Except.ok (uvs, pos_after_uv) =>
            match findFrom d (g.face_magic ++ [byteAt d (i + 2), 0x6A]) pos_after_uv with
            | none => some (Except.error "Face pattern not found.")
            | some pos_faces =>
              -- `faces_start = pos_faces + len(faces_prefix) + 6 = pos_faces + 10`
              if pos_faces + 4 + 3 * byteAt d (i + 2) > d.length then
                some (Except.error "Corrupted or incomplete PCK file (faces).")
              else
                some (Except.ok
                  ({ pattern := nm
                     start := i
                     XX := byteAt d (i + 2)
                     vertices := decodeVertices d (i + 4) (byteAt d (i + 2))
                     uvs := uvs
                     active_faces := (decodeFaces d (pos_faces + 10) (byteAt d (i + 2))).1
                     inactive_faces := (decodeFaces d (pos_faces + 10) (byteAt d (i + 2))).2
                     vertices_offset := i + 4
                     vertices_end := i + 4 + byteAt d (i + 2) * 6
                     faces_offset := pos_faces },
                   pos_faces + 4 + 3 * byteAt d (i + 2)))
      else none
    else none
  else none

/-- The observable state of `find_vertex_patterns` when it returns: the groups
appended to `self.vertex_groups`, the returned success flag, and
`self.error_message`. -/
structure ScanResult where
  vertex_groups : List VGroup
  parse_success : Bool
  error_message : String
deriving DecidableEq, Repr

/-- The `while i < len(self.data) - 4` loop.  The fuel argument only bounds the
recursion: the cursor strictly increases every iteration, so `d.length` fuel
(as supplied by `find_vertex_patterns`) is always enough, and
`scan_loop_congr` below shows the result does not depend on the fuel once it
is sufficient.  Grammars are tried in the source's dict order: `pattern1`
then `pattern2`. -/
def scan_loop (d : List Nat) : Nat → Nat → List VGroup → ScanResult
  | 0, _, acc => ⟨acc, true, ""⟩
  | fuel + 1, i, acc =>
    if i < d.length - 4 then
      match tryPattern "pattern1" pattern1 d i with
      | some (Except.error e) => ⟨acc, false, e⟩
      | some (Except.ok (g, next)) => scan_loop d fuel next (acc ++ [g])
      | none =>
        match tryPattern "pattern2" pattern2 d i with
        | some (Except.error e) => ⟨acc, false, e⟩
        | some (Except.ok (g, next)) => scan_loop d fuel next (acc ++ [g])
        | none => scan_loop d fuel (i + 1) acc
    else ⟨acc, true, ""⟩

/-- `PCKParser.find_vertex_patterns` on a raw byte buffer. -/
def find_vertex_patterns (d : List Nat) : ScanResult :=
  scan_loop d d.length 0 []

/-- The scan continued from an arbitrary cursor position (`find_vertex_patterns`
is `scanFrom d 0 []`); used to state claims about what the loop does when it
reaches a given offset. -/
def scanFrom (d : List Nat) (i : Nat) (acc : List VGroup) : ScanResult :=
  scan_loop d d.length i acc

/-- The candidate-match test of the scanner at one grammar and position: 2-byte
magic, count byte in `0..0x2A`, terminator `0x69`. -/
def headerCandidate (g : Grammar) (d : List Nat) (i : Nat) : Bool :=
  decide (extract d i 2 = g.magic) && decide (byteAt d (i + 2) ≤ 0x2A) &&
    decide (byteAt d (i + 3) = 0x69)

-- The C1 scenario buffer: vertex header for 3 vertices, 18 zero bytes,
-- face signature, 6 padding bytes, one 3-byte face record.
def c1buf : List Nat :=
  [0xEE, 0x00, 0x03, 0x69] ++ List.replicate 18 0 ++ [0x9A, 0x00, 0x03, 0x6A] ++
    List.replicate 6 0 ++ [0x00, 0x00, 0x00]

def c1group : VGroup :=
  { pattern := "pattern1"
    start := 0
    XX := 3
    vertices := [(0, 0, 0), (0, 0, 0), (0, 0, 0)]
    uvs := []
    active_faces := [⟨(1, 2, 3), 0⟩]
    inactive_faces := []
    vertices_offset := 4
    vertices_end := 22
    faces_offset := 22 }


/-- The index translation of `PCKParser.parse` for one face: each 1-based local
index becomes `idx - 1 + base`, and the record is kept only when all three
translated indices satisfy `0 ≤ idx < total` (`total` is the length of the
global vertex list at the moment the group is processed). -/
def adjustFace (base total : Nat) (f : Face) : Option (Int × Int × Int) :=
  let a1 : Int := (f.indices.1 : Int) - 1 + (base : Int)
  let a2 : Int := (f.indices.2.1 : Int) - 1 + (base : Int)
  let a3 : Int := (f.indices.2.2 : Int) - 1 + (base : Int)
  if 0 ≤ a1 ∧ a1 < (total : Int) ∧ 0 ≤ a2 ∧ a2 < (total : Int) ∧
      0 ≤ a3 ∧ a3 < (total : Int) then
    some (a1, a2, a3)
  else none

/-- One group after the remapping loop of `PCKParser.parse`: the scanner group
plus `base_index`, `mesh_active_faces`, `mesh_inactive_faces`.  (The Python
`isinstance(face, dict) and 'indices' in face` guard is always true for
scanner-produced faces, which are exactly the dicts built with an `indices`
key; the corresponding error branch is therefore unreachable and has no
counterpart in the embedding, where `Face` carries `indices` by type.) -/
structure MeshGroup where
  g : VGroup
  base_index : Nat
  mesh_active_faces : List (Int × Int × Int)
  mesh_inactive_faces : List (Int × Int × Int)
deriving DecidableEq, Repr

/-- The remapping fold of `PCKParser.parse`: `base = len(self.vertices)`, append
the group's vertices to the global list, then translate and bound-check each
face against the global list as grown so far. -/
def remapGroups : List VGroup → List (Int × Int × Int) →
    List (Int × Int × Int) × List MeshGroup
  | [], verts => (verts, [])
  | g :: rest, verts =>
    let base := verts.length
    let verts' := verts ++ g.vertices
    let mg : MeshGroup :=
      ⟨g, base, g.active_faces.filterMap (adjustFace base verts'.length),
        g.inactive_faces.filterMap (adjustFace base verts'.length)⟩
    let r := remapGroups rest verts'
    (r.1, mg :: r.2)

/-- The assembled result of a successful `PCKParser.parse`: the global vertex
list and the remapped groups. -/
structure Model where
  vertices : List (Int × Int × Int)
  groups : List MeshGroup
deriving DecidableEq, Repr

/-- `PCKParser.parse` on an in-memory buffer (file reading, an I/O concern,
is outside the embedding): run the scan, fail with its message on failure,
otherwise remap the groups to global indices. -/
def parse (d : List Nat) : Except String Model :=
  let res := find_vertex_patterns d
  if res.parse_success then
    Except.ok ⟨(remapGroups res.vertex_groups []).1, (remapGroups res.vertex_groups []).2⟩
  else
    Except.error res.error_message

/-- A `v` line of `MainWindow.export_to_obj`.  (The source renders the numbers
through `numpy.float32`; the claims under verification concern only the line
structure, never the numeral text, so the embedding renders the exact decoded
integers of the unscaled path.) -/
def vLine (v : Int × Int × Int) : String :=
  "v " ++ toString v.1 ++ " " ++ toString v.2.1 ++ " " ++ toString v.2.2

/-- A `vt` line of `export_to_obj`. -/
def vtLine (uv : Int × Int) : String :=
  "vt " ++ toString uv.1 ++ " " ++ toString uv.2

/-- An `f` line of `export_to_obj`: 1-based identical vertex/texture indices. -/
def fLine (t : Int × Int × Int) : String :=
  "f " ++ toString (t.1 + 1) ++ "/" ++ toString (t.1 + 1) ++ " " ++
    toString (t.2.1 + 1) ++ "/" ++ toString (t.2.1 + 1) ++ " " ++
    toString (t.2.2 + 1) ++ "/" ++ toString (t.2.2 + 1)

/-- The grouped-UV build of `export_to_obj`: per group in scan order, its UVs
when their count equals the group's vertex count, else one `(0,0)` per vertex. -/
def build_global_uvs (groups : List VGroup) : List (Int × Int) :=
  groups.flatMap fun g =>
    if g.uvs.length = g.vertices.length then g.uvs
    else List.replicate g.vertices.length (0, 0)

/-- The final clamp of `export_to_obj`: zero-pad or truncate the global UV list
to exactly the global vertex count. -/
def fit_uvs (uvs : List (Int × Int)) (n : Nat) : List (Int × Int) :=
  if uvs.length < n then uvs ++ List.replicate (n - uvs.length) (0, 0)
  else if n < uvs.length then uvs.take n
  else uvs

/-- The `obj_lines` list of `export_to_obj`: all `v` lines, then all `vt`
lines, then the active-face `f` lines of each group in order. -/
def export_lines (m : Model) : List String :=
  m.vertices.map vLine ++
    (fit_uvs (build_global_uvs (m.groups.map MeshGroup.g)) m.vertices.length).map vtLine ++
    m.groups.flatMap fun mg => mg.mesh_active_faces.map fLine

/-- Number of texture-coordinate lines: those whose first three characters are
`vt` followed by a space. -/
def count_vt_lines (ls : List String) : Nat :=
  ls.countP fun s => s.data.take 3 == ['v', 't', ' ']

/-- Number of vertex lines: those whose first two characters are `v` followed
by a space (a `vt` line has `t` there, an `f` line starts with `f`). -/
def count_v_lines (ls : List String) : Nat :=
  ls.countP fun s => s.data.take 2 == ['v', ' ']

-- Concrete buffers used by counterexamples and witnesses.

/-- Vertex header with count 5 and nothing after it: 4 bytes in total. -/
def c3buf : List Nat := [0xEE, 0x00, 0x05, 0x69]

/-- Vertex header with count 5 followed by a single byte: tested by the loop,
then rejected because 30 vertex bytes do not fit. -/
def c3wbuf : List Nat := [0xEE, 0x00, 0x05, 0x69, 0x00]

/-- Vertex header with count 0 followed by four non-signature bytes: the face
signature `9A 00 00 6A` occurs nowhere at or after offset 4. -/
def c4buf : List Nat := [0xEE, 0x00, 0x00, 0x69, 0x00, 0x00, 0x00, 0x00]

/-- Vertex header whose count byte is `0x2B`, one past the accepted range. -/
def c5buf : List Nat := [0xEE, 0x00, 0x2B, 0x69, 0x00, 0x00, 0x00, 0x00, 0x00]

/-- Two chained count-0 groups: header, face signature, and then a second
header and signature sitting inside the first group's 6 padding bytes. -/
def c6buf : List Nat :=
  [0xEE, 0x00, 0x00, 0x69, 0x9A, 0x00, 0x00, 0x6A,
   0xEE, 0x00, 0x00, 0x69, 0x9A, 0x00, 0x00, 0x6A]

/-- A complete vertex header with count 0 and exactly 4 bytes remaining at
offset 0: the loop bound `i < len(data) - 4` never tests it. -/
def c7buf : List Nat := [0xEE, 0x00, 0x00, 0x69]

-- ### Properties of the primitive scanners and decoders

theorem findFromAux_some {d pat : List Nat} :
    ∀ {fuel start p : Nat}, findFromAux d pat fuel start = some p →
      start ≤ p ∧ extract d p pat.length = pat ∧ p + pat.length ≤ d.length := by
  intro fuel
  induction fuel with
  | zero => intro start p h; simp [findFromAux] at h
  | succ n ih =>
    intro start p h
    rw [findFromAux] at h
    split at h
    · simp at h
    · split at h
      · rename_i hfit hex
        cases h
        exact ⟨Nat.le_refl _, hex, Nat.le_of_not_lt hfit⟩
      · have h' := ih h
        exact ⟨Nat.le_trans (Nat.le_succ _) h'.1, h'.2⟩

theorem findFrom_some {d pat : List Nat} {start p : Nat}
    (h : findFrom d pat start = some p) :
    start ≤ p ∧ extract d p pat.length = pat ∧ p + pat.length ≤ d.length :=
  findFromAux_some h

theorem findFromAux_eq_none {d pat : List Nat} :
    ∀ {fuel start : Nat}, d.length + 1 ≤ start + fuel →
      (∀ p, start ≤ p → p + pat.length ≤ d.length → extract d p pat.length ≠ pat) →
      findFromAux d pat fuel start = none := by
  intro fuel
  induction fuel with
  | zero => intro start _ _; rfl
  | succ n ih =>
    intro start hle habs
    rw [findFromAux]
    split
    · rfl
    · rename_i hfit
      rw [if_neg (habs start (Nat.le_refl _) (Nat.le_of_not_lt hfit))]
      exact ih (by omega) fun p hp => habs p (by omega)

theorem findFrom_eq_none {d pat : List Nat} {start : Nat}
    (habs : ∀ p, start ≤ p → p + pat.length ≤ d.length → extract d p pat.length ≠ pat) :
    findFrom d pat start = none := by
  by_cases hs : start ≤ d.length
  · exact findFromAux_eq_none (by omega) habs
  · have : d.length + 1 - start = 0 := by omega
    rw [findFrom, this, findFromAux]

theorem uvScan_ok_ge {g : Grammar} {d : List Nat} {XX vend : Nat}
    {uvs : List (Int × Int)} {p : Nat}
    (h : uvScan g d XX vend = Except.ok (uvs, p)) : vend ≤ p := by
  rw [uvScan] at h
  split at h
  · split at h
    · split at h
      · cases h
      · cases h; omega
    · cases h; omega
  · cases h; omega

theorem decodeVertices_length (d : List Nat) (vs XX : Nat) :
    (decodeVertices d vs XX).length = XX := by
  simp [decodeVertices]

theorem decodeUVs_length (d : List Nat) (us XX : Nat) :
    (decodeUVs d us XX).length = XX := by
  simp [decodeUVs]

theorem decodeFacesFrom_length {d : List Nat} {fs XX : Nat} :
    ∀ (n k : Nat), k + n + 2 ≤ XX →
      ((decodeFacesFrom d fs XX k n).1.length + (decodeFacesFrom d fs XX k n).2.length = n) := by
  intro n
  induction n with
  | zero => intro k _; rfl
  | succ m ih =>
    intro k hk
    have hrec := ih (k + 1) (by omega)
    rw [decodeFacesFrom, if_neg (by omega)]
    split <;> simp only [List.length_cons] <;> omega

theorem decodeFaces_length (d : List Nat) (fs XX : Nat) :
    (decodeFaces d fs XX).1.length + (decodeFaces d fs XX).2.length = XX - 2 := by
  rw [decodeFaces]
  rcases Nat.lt_or_ge XX 2 with h | h
  · interval_cases XX <;> rfl
  · exact decodeFacesFrom_length _ _ (by omega)

/-- Well-formedness of a single decoded face record relative to the declared
count: its indices are three consecutive 1-based numbers bounded by the count. -/
def FaceWF (XX : Nat) (f : Face) : Prop :=
  ∃ k, f.indices = (k + 1, k + 2, k + 3) ∧ k + 3 ≤ XX

theorem decodeFacesFrom_memWF {d : List Nat} {fs XX : Nat} :
    ∀ (n k : Nat) (f : Face),
      (f ∈ (decodeFacesFrom d fs XX k n).1 ∨ f ∈ (decodeFacesFrom d fs XX k n).2) →
      FaceWF XX f := by
  intro n
  induction n with
  | zero => intro k f h; rcases h with h | h <;> simp [decodeFacesFrom] at h
  | succ m ih =>
    intro k f h
    rw [decodeFacesFrom] at h
    split at h
    · exact ih (k + 1) f h
    · rename_i hkept
      split at h
      · rcases h with h | h
        · rcases List.mem_cons.mp h with rfl | h
          · exact ⟨k, rfl, by omega⟩
          · exact ih (k + 1) f (Or.inl h)
        · exact ih (k + 1) f (Or.inr h)
      · rcases h with h | h
        · exact ih (k + 1) f (Or.inl h)
        · rcases List.mem_cons.mp h with rfl | h
          · exact ⟨k, rfl, by omega⟩
          · exact ih (k + 1) f (Or.inr h)

theorem decodeFaces_memWF {d : List Nat} {fs XX : Nat} {f : Face}
    (h : f ∈ (decodeFaces d fs XX).1 ∨ f ∈ (decodeFaces d fs XX).2) : FaceWF XX f :=
  decodeFacesFrom_memWF _ _ _ h

/-- Well-formedness of a scanner-produced group: the declared count is in
range, the vertex list has exactly that many entries, the face records number
exactly `XX - 2`, and every face record's indices are consecutive and bounded
by the count. -/
def VGroupWF (g : VGroup) : Prop :=
  g.XX ≤ 0x2A ∧
  g.vertices.length = g.XX ∧
  g.active_faces.length + g.inactive_faces.length = g.XX - 2 ∧
  (∀ f ∈ g.active_faces, FaceWF g.XX f) ∧
  (∀ f ∈ g.inactive_faces, FaceWF g.XX f)

theorem tryPattern_ok_spec {nm : String} {g : Grammar} {d : List Nat} {i : Nat}
    {gr : VGroup} {next : Nat}
    (h : tryPattern nm g d i = some (Except.ok (gr, next))) :
    gr.pattern = nm ∧ gr.start = i ∧ gr.XX = byteAt d (i + 2) ∧ gr.XX ≤ 0x2A ∧
    gr.vertices = decodeVertices d (i + 4) gr.XX ∧
    gr.active_faces = (decodeFaces d (gr.faces_offset + 10) gr.XX).1 ∧
    gr.inactive_faces = (decodeFaces d (gr.faces_offset + 10) gr.XX).2 ∧
    i + 4 + gr.XX * 6 ≤ gr.faces_offset ∧
    next = gr.faces_offset + 4 + 3 * gr.XX := by
  rw [tryPattern] at h
  by_cases h1 : extract d i 2 = g.magic
  swap
  · simp [h1] at h
  rw [if_pos h1] at h
  by_cases h2 : byteAt d (i + 2) ≤ 0x2A
  swap
  · simp [h2] at h
  rw [if_pos h2] at h
  by_cases h3 : byteAt d (i + 3) = 0x69
  swap
  · simp [h3] at h
  rw [if_pos h3] at h
  by_cases h4 : i + 4 + byteAt d (i + 2) * 6 > d.length
  · rw [if_pos h4] at h
    simp at h
  rw [if_neg h4] at h
  rcases huv : uvScan g d (byteAt d (i + 2)) (i + 4 + byteAt d (i + 2) * 6) with e | uvp
  · rw [huv] at h
    simp at h
  obtain ⟨uvs, pos_after_uv⟩ := uvp
  rw [huv] at h
  dsimp only at h
  rcases hfind : findFrom d (g.face_magic ++ [byteAt d (i + 2), 0x6A]) pos_after_uv with
    _ | pos_faces
  · rw [hfind] at h
    simp at h
  rw [hfind] at h
  dsimp only at h
  by_cases h5 : pos_faces + 4 + 3 * byteAt d (i + 2) > d.length
  · rw [if_pos h5] at h
    simp at h
  rw [if_neg h5] at h
  simp only [Option.some.injEq, Except.ok.injEq, Prod.mk.injEq] at h
  obtain ⟨hgr, hnext⟩ := h
  subst hnext
  subst hgr
  have hle1 : i + 4 + byteAt d (i + 2) * 6 ≤ pos_after_uv := uvScan_ok_ge huv
  have hle2 : pos_after_uv ≤ pos_faces := (findFrom_some hfind).1
  refine ⟨rfl, rfl, rfl, h2, rfl, rfl, rfl, ?_, rfl⟩
  show i + 4 + byteAt d (i + 2) * 6 ≤ pos_faces
  omega

theorem tryPattern_ok_wf {nm : String} {g : Grammar} {d : List Nat} {i : Nat}
    {gr : VGroup} {next : Nat}
    (h : tryPattern nm g d i = some (Except.ok (gr, next))) : VGroupWF gr := by
  obtain ⟨-, -, -, hXX, hverts, hact, hinact, -, -⟩ := tryPattern_ok_spec h
  refine ⟨hXX, ?_, ?_, ?_, ?_⟩
  · rw [hverts, decodeVertices_length]
  · rw [hact, hinact, decodeFaces_length]
  · intro f hf
    exact decodeFaces_memWF (Or.inl (hact ▸ hf))
  · intro f hf
    exact decodeFaces_memWF (Or.inr (hinact ▸ hf))

theorem tryPattern_ok_next_gt {nm : String} {g : Grammar} {d : List Nat} {i : Nat}
    {gr : VGroup} {next : Nat}
    (h : tryPattern nm g d i = some (Except.ok (gr, next))) : i < next := by
  obtain ⟨-, -, -, -, -, -, -, hoff, hnext⟩ := tryPattern_ok_spec h
  omega

theorem tryPattern_eq_none {nm : String} {g : Grammar} {d : List Nat} {i : Nat}
    (h : headerCandidate g d i = false) : tryPattern nm g d i = none := by
  rw [headerCandidate] at h
  rw [tryPattern]
  by_cases h1 : extract d i 2 = g.magic
  · by_cases h2 : byteAt d (i + 2) ≤ 0x2A
    · by_cases h3 : byteAt d (i + 3) = 0x69
      · simp [h1, h2, h3] at h
      · simp [h1, h2, h3]
    · simp [h1, h2]
  · simp [h1]

theorem tryPattern_isSome {nm : String} {g : Grammar} {d : List Nat} {i : Nat}
    (h1 : extract d i 2 = g.magic) (h2 : byteAt d (i + 2) ≤ 0x2A)
    (h3 : byteAt d (i + 3) = 0x69) : (tryPattern nm g d i).isSome = true := by
  rw [tryPattern, if_pos h1, if_pos h2, if_pos h3]
  by_cases h4 : i + 4 + byteAt d (i + 2) * 6 > d.length
  · rw [if_pos h4]
    rfl
  rw [if_neg h4]
  rcases huv : uvScan g d (byteAt d (i + 2)) (i + 4 + byteAt d (i + 2) * 6) with e | uvp
  · rfl
  obtain ⟨uvs, pos_after_uv⟩ := uvp
  dsimp only
  rcases hfind : findFrom d (g.face_magic ++ [byteAt d (i + 2), 0x6A]) pos_after_uv with
    _ | pos_faces
  · rfl
  dsimp only
  by_cases h5 : pos_faces + 4 + 3 * byteAt d (i + 2) > d.length
  · rw [if_pos h5]
    rfl
  · rw [if_neg h5]
    rfl

theorem magic_distinct : pattern1.magic ≠ pattern2.magic := by decide

-- ### The scan loop: fuel irrelevance, single steps, and the group-chain invariant

theorem scan_loop_congr (d : List Nat) :
    ∀ (f1 : Nat) {f2 i : Nat} {acc : List VGroup},
      d.length - 4 - i ≤ f1 → d.length - 4 - i ≤ f2 →
      scan_loop d f1 i acc = scan_loop d f2 i acc := by
  intro f1
  induction f1 with
  | zero =>
    intro f2 i acc h1 h2
    have hc : ¬ i < d.length - 4 := by omega
    cases f2 with
    | zero => rfl
    | succ m => simp only [scan_loop, if_neg hc]
  | succ n ih =>
    intro f2 i acc h1 h2
    by_cases hc : i < d.length - 4
    · have hf2 : ∃ m, f2 = m + 1 := ⟨f2 - 1, by omega⟩
      obtain ⟨m, rfl⟩ := hf2
      rw [scan_loop, scan_loop, if_pos hc, if_pos hc]
      rcases h1p : tryPattern "pattern1" pattern1 d i with _ | e | ⟨g, next⟩
      · dsimp only
        rcases h2p : tryPattern "pattern2" pattern2 d i with _ | e | ⟨g, next⟩
        · exact ih (by omega) (by omega)
        · rfl
        · have hgt := tryPattern_ok_next_gt h2p
          exact ih (by omega) (by omega)
      · rfl
      · have hgt := tryPattern_ok_next_gt h1p
        dsimp only
        exact ih (by omega) (by omega)
    · cases f2 with
      | zero => simp only [scan_loop, if_neg hc]
      | succ m => simp only [scan_loop, if_neg hc]

theorem scanFrom_stop {d : List Nat} {i : Nat} {acc : List VGroup}
    (h : ¬ i < d.length - 4) : scanFrom d i acc = ⟨acc, true, ""⟩ := by
  rw [scanFrom]
  cases hl : d.length with
  | zero => rfl
  | succ m => rw [scan_loop, if_neg h]

theorem scanFrom_error1 {d : List Nat} {i : Nat} {acc : List VGroup} {e : String}
    (hc : i < d.length - 4)
    (h1 : tryPattern "pattern1" pattern1 d i = some (Except.error e)) :
    scanFrom d i acc = ⟨acc, false, e⟩ := by
  obtain ⟨m, hm⟩ : ∃ m, d.length = m + 1 := ⟨d.length - 1, by omega⟩
  rw [scanFrom, hm, scan_loop, if_pos hc, h1]

theorem scanFrom_error2 {d : List Nat} {i : Nat} {acc : List VGroup} {e : String}
    (hc : i < d.length - 4)
    (h1 : tryPattern "pattern1" pattern1 d i = none)
    (h2 : tryPattern "pattern2" pattern2 d i = some (Except.error e)) :
    scanFrom d i acc = ⟨acc, false, e⟩ := by
  obtain ⟨m, hm⟩ : ∃ m, d.length = m + 1 := ⟨d.length - 1, by omega⟩
  rw [scanFrom, hm, scan_loop, if_pos hc, h1]
  dsimp only
  rw [h2]

theorem scanFrom_skip {d : List Nat} {i : Nat} {acc : List VGroup}
    (hc : i < d.length - 4)
    (h1 : tryPattern "pattern1" pattern1 d i = none)
    (h2 : tryPattern "pattern2" pattern2 d i = none) :
    scanFrom d i acc = scanFrom d (i + 1) acc := by
  obtain ⟨m, hm⟩ : ∃ m, d.length = m + 1 := ⟨d.length - 1, by omega⟩
  rw [scanFrom, hm, scan_loop, if_pos hc, h1]
  dsimp only
  rw [h2]
  dsimp only
  rw [scanFrom]
  exact scan_loop_congr d m (by omega) (by omega)

/-- The offsets invariant of the scan: starting from lower bound `lo`, each
group in the list starts at or after `lo`, is well formed, has its face
signature at or after the end of its vertex block, and bounds the rest of the
list by its own cursor-jump target `faces_offset + 4 + 3·XX`. -/
def ChainFrom : Nat → List VGroup → Prop
  | _, [] => True
  | lo, g :: rest =>
    lo ≤ g.start ∧ VGroupWF g ∧ g.start + 4 + g.XX * 6 ≤ g.faces_offset ∧
      ChainFrom (g.faces_offset + 4 + 3 * g.XX) rest

theorem ChainFrom_anti {l : List VGroup} :
    ∀ {lo lo' : Nat}, lo' ≤ lo → ChainFrom lo l → ChainFrom lo' l := by
  cases l with
  | nil => intro lo lo' _ _; trivial
  | cons g rest =>
    intro lo lo' hle h
    exact ⟨Nat.le_trans hle h.1, h.2.1, h.2.2.1, h.2.2.2⟩

theorem scan_loop_chain (d : List Nat) :
    ∀ (fuel i : Nat) (acc : List VGroup),
      ∃ new, (scan_loop d fuel i acc).vertex_groups = acc ++ new ∧ ChainFrom i new := by
  intro fuel
  induction fuel with
  | zero => intro i acc; exact ⟨[], by simp [scan_loop], trivial⟩
  | succ n ih =>
    intro i acc
    by_cases hc : i < d.length - 4
    · rw [scan_loop, if_pos hc]
      rcases h1p : tryPattern "pattern1" pattern1 d i with _ | e | ⟨g, next⟩
      · dsimp only
        rcases h2p : tryPattern "pattern2" pattern2 d i with _ | e | ⟨g, next⟩
        · dsimp only
          obtain ⟨new, hgroups, hchain⟩ := ih (i + 1) acc
          exact ⟨new, hgroups, ChainFrom_anti (Nat.le_succ i) hchain⟩
        · exact ⟨[], by simp, trivial⟩
        · dsimp only
          obtain ⟨new, hgroups, hchain⟩ := ih next (acc ++ [g])
          obtain ⟨-, hstart, -, -, -, -, -, hoff, hnext⟩ := tryPattern_ok_spec h2p
          refine ⟨g :: new, by rw [hgroups]; simp, ?_, tryPattern_ok_wf h2p, ?_, ?_⟩
          · omega
          · omega
          · rw [← hnext]
            exact hchain
      · exact ⟨[], by simp, trivial⟩
      · dsimp only
        obtain ⟨new, hgroups, hchain⟩ := ih next (acc ++ [g])
        obtain ⟨-, hstart, -, -, -, -, -, hoff, hnext⟩ := tryPattern_ok_spec h1p
        refine ⟨g :: new, by rw [hgroups]; simp, ?_, tryPattern_ok_wf h1p, ?_, ?_⟩
        · omega
        · omega
        · rw [← hnext]
          exact hchain
    · exact ⟨[], by simp [scan_loop, if_neg hc], trivial⟩

theorem find_vertex_patterns_chain (d : List Nat) :
    ChainFrom 0 (find_vertex_patterns d).vertex_groups := by
  obtain ⟨new, hgroups, hchain⟩ := scan_loop_chain d d.length 0 []
  rw [find_vertex_patterns, hgroups]
  simpa using hchain

theorem ChainFrom_mem_wf {g : VGroup} :
    ∀ {l : List VGroup} {lo : Nat}, ChainFrom lo l → g ∈ l → VGroupWF g := by
  intro l
  induction l with
  | nil => intro lo _ hmem; cases hmem
  | cons a rest ih =>
    intro lo h hmem
    rcases List.mem_cons.mp hmem with rfl | hmem
    · exact h.2.1
    · exact ih h.2.2.2 hmem

theorem ChainFrom_lb :
    ∀ {l : List VGroup} {lo : Nat}, ChainFrom lo l → ∀ g ∈ l, lo ≤ g.start := by
  intro l
  induction l with
  | nil => intro lo _ g hmem; cases hmem
  | cons a rest ih =>
    intro lo h g hmem
    rcases List.mem_cons.mp hmem with rfl | hmem
    · exact h.1
    · have := ih h.2.2.2 g hmem
      have h1 := h.1
      have h3 := h.2.2.1
      omega

theorem ChainFrom_pairwise :
    ∀ {l : List VGroup} {lo : Nat}, ChainFrom lo l →
      l.Pairwise (fun a b => a.start < b.start ∧ a.faces_offset + 4 + 3 * a.XX ≤ b.start) := by
  intro l
  induction l with
  | nil => intro lo _; exact List.Pairwise.nil
  | cons a rest ih =>
    intro lo h
    refine List.Pairwise.cons ?_ (ih h.2.2.2)
    intro b hb
    have hlb := ChainFrom_lb h.2.2.2 b hb
    have h3 := h.2.2.1
    omega

-- ### The index remapper

theorem filterMap_adjust {XX : Nat} :
    ∀ (faces : List Face) (base : Nat), (∀ f ∈ faces, FaceWF XX f) →
      (faces.filterMap (adjustFace base (base + XX))).length = faces.length ∧
      ∀ t ∈ faces.filterMap (adjustFace base (base + XX)),
        (base : Int) ≤ t.1 ∧ t.1 < (base : Int) + (XX : Int) ∧
        (base : Int) ≤ t.2.1 ∧ t.2.1 < (base : Int) + (XX : Int) ∧
        (base : Int) ≤ t.2.2 ∧ t.2.2 < (base : Int) + (XX : Int) := by
  intro faces
  induction faces with
  | nil => intro base _; exact ⟨rfl, by simp⟩
  | cons f rest ih =>
    intro base hwf
    obtain ⟨k, hidx, hk⟩ := hwf f (List.mem_cons_self f rest)
    obtain ⟨ihlen, ihmem⟩ := ih base fun f hf => hwf f (List.mem_cons_of_mem _ hf)
    have hadj : adjustFace base (base + XX) f =
        some ((f.indices.1 : Int) - 1 + (base : Int),
          (f.indices.2.1 : Int) - 1 + (base : Int),
          (f.indices.2.2 : Int) - 1 + (base : Int)) := by
      rw [adjustFace, if_pos]
      rw [hidx]
      push_cast
      constructor
      · omega
      refine ⟨?_, ?_, ?_, ?_, ?_⟩ <;> omega
    rw [List.filterMap_cons, hadj]
    refine ⟨by simp [ihlen], ?_⟩
    intro t ht
    rcases List.mem_cons.mp ht with rfl | ht
    · rw [hidx]
      push_cast
      refine ⟨by omega, by omega, by omega, by omega, by omega, by omega⟩
    · exact ihmem t ht

theorem remapGroups_verts :
    ∀ (gs : List VGroup) (verts : List (Int × Int × Int)),
      (remapGroups gs verts).1 = verts ++ gs.flatMap VGroup.vertices := by
  intro gs
  induction gs with
  | nil => intro verts; simp [remapGroups]
  | cons g rest ih =>
    intro verts
    rw [remapGroups]
    dsimp only
    rw [ih]
    simp

theorem remapGroups_facts :
    ∀ (gs : List VGroup) (verts : List (Int × Int × Int)),
      (∀ g ∈ gs, VGroupWF g) →
      ∀ mg ∈ (remapGroups gs verts).2,
        mg.mesh_active_faces.length = mg.g.active_faces.length ∧
        mg.mesh_inactive_faces.length = mg.g.inactive_faces.length ∧
        ∀ t ∈ mg.mesh_active_faces ++ mg.mesh_inactive_faces,
          0 ≤ t.1 ∧ t.1 < ((remapGroups gs verts).1.length : Int) ∧
          0 ≤ t.2.1 ∧ t.2.1 < ((remapGroups gs verts).1.length : Int) ∧
          0 ≤ t.2.2 ∧ t.2.2 < ((remapGroups gs verts).1.length : Int) := by
  intro gs
  induction gs with
  | nil => intro verts _ mg hmg; simp [remapGroups] at hmg
  | cons g rest ih =>
    intro verts hwf mg hmg
    rw [remapGroups] at hmg
    dsimp only at hmg
    have hwfg := hwf g (List.mem_cons_self g rest)
    have hlen : (verts ++ g.vertices).length = verts.length + g.XX := by
      simp [hwfg.2.1]
    have hfinal : (remapGroups (g :: rest) verts).1 =
        (remapGroups rest (verts ++ g.vertices)).1 := by
      rw [remapGroups]
    have hfinlen : (verts ++ g.vertices).length ≤ (remapGroups (g :: rest) verts).1.length := by
      rw [hfinal, remapGroups_verts]
      simp
    rcases List.mem_cons.mp hmg with rfl | hmg
    · obtain ⟨hlena, hmema⟩ :=
        filterMap_adjust g.active_faces verts.length hwfg.2.2.2.1
      obtain ⟨hleni, hmemi⟩ :=
        filterMap_adjust g.inactive_faces verts.length hwfg.2.2.2.2
      rw [hlen] at *
      refine ⟨hlena, hleni, ?_⟩
      have hc : (verts.length : Int) + (g.XX : Int) ≤
          ((remapGroups (g :: rest) verts).1.length : Int) := by
        exact_mod_cast hfinlen
      intro t ht
      rcases List.mem_append.mp ht with ht | ht
      · have := hmema t ht
        omega
      · have := hmemi t ht
        omega
    · have := ih (verts ++ g.vertices) (fun a ha => hwf a (List.mem_cons_of_mem _ ha)) mg hmg
      rw [← hfinal] at this
      exact this

-- ### The OBJ exporter

theorem fit_uvs_length (uvs : List (Int × Int)) (n : Nat) : (fit_uvs uvs n).length = n := by
  rw [fit_uvs]
  split
  · rename_i h
    simp
    omega
  · split
    · rename_i h h'
      simp
      omega
    · rename_i h h'
      omega

theorem vLine_data (v : Int × Int × Int) : ∃ r, (vLine v).data = 'v' :: ' ' :: r := by
  rw [vLine]
  simp only [String.data_append, List.append_assoc]
  exact ⟨_, rfl⟩

theorem vtLine_data (uv : Int × Int) : ∃ r, (vtLine uv).data = 'v' :: 't' :: ' ' :: r := by
  rw [vtLine]
  simp only [String.data_append, List.append_assoc]
  exact ⟨_, rfl⟩

theorem fLine_data (t : Int × Int × Int) : ∃ r, (fLine t).data = 'f' :: ' ' :: r := by
  rw [fLine]
  simp only [String.data_append, List.append_assoc]
  exact ⟨_, rfl⟩

theorem tryPattern_trunc {nm : String} {g : Grammar} {d : List Nat} {i : Nat}
    (h1 : extract d i 2 = g.magic) (h2 : byteAt d (i + 2) ≤ 0x2A)
    (h3 : byteAt d (i + 3) = 0x69) (h4 : d.length < i + 4 + byteAt d (i + 2) * 6) :
    tryPattern nm g d i = some (Except.error "Corrupted or incomplete PCK file (vertices).") := by
  rw [tryPattern, if_pos h1, if_pos h2, if_pos h3, if_pos (by omega)]

theorem headerCandidate_iff {g : Grammar} {d : List Nat} {i : Nat} :
    headerCandidate g d i = true ↔
      extract d i 2 = g.magic ∧ byteAt d (i + 2) ≤ 0x2A ∧ byteAt d (i + 3) = 0x69 := by
  rw [headerCandidate]
  simp [and_assoc]

-- ### The claims

/-- C1: parsing the 35-byte buffer consisting of the header `EE 00 03 69`,
18 zero bytes (3 vertices), `9A 00 03 6A`, 6 padding bytes, and the 3 bytes
`00 00 00` succeeds and yields exactly one group of grammar pattern1 (grammar
A) with 3 vertices all `(0,0,0)`, no UVs, exactly one active face `(1,2,3)`,
and no inactive faces. -/
theorem claim1_single_group_scenario :
    find_vertex_patterns c1buf = ⟨[c1group], true, ""⟩ := by decide

/-- C2: every group the scanner decodes has a declared count `XX ≤ 42`, and
its total number of decoded face records (active plus inactive) is exactly
`XX - 2` (natural subtraction: 0 when `XX ≤ 2`, so in particular 0 when `XX`
is 0 or 1, never negative) — no decoded record is dropped by the
third-index-exceeds-`XX` check. -/
theorem claim2_face_record_count (d : List Nat) (g : VGroup)
    (hg : g ∈ (find_vertex_patterns d).vertex_groups) :
    g.XX ≤ 42 ∧
    g.active_faces.length + g.inactive_faces.length = g.XX - 2 ∧
    (g.XX ≤ 1 → g.active_faces.length + g.inactive_faces.length = 0) := by
  have hwf := ChainFrom_mem_wf (find_vertex_patterns_chain d) hg
  refine ⟨hwf.1, hwf.2.2.1, fun h => ?_⟩
  rw [hwf.2.2.1]
  omega

theorem claim2_face_record_count_witness :
    c1group ∈ (find_vertex_patterns c1buf).vertex_groups ∧
    c1group.active_faces.length + c1group.inactive_faces.length = c1group.XX - 2 :=
  ⟨by decide, (claim2_face_record_count c1buf c1group (by decide)).2.1⟩

/-- C3 counterexample: in the 4-byte buffer `EE 00 05 69` a grammar's vertex
header matches at position 0 with declared count 5 and fewer than 30 bytes
follow it, yet the scan does not fail with a structural error — it succeeds
with no groups, because the loop `while i < len(data) - 4` never tests a
position with only 4 remaining bytes. -/
theorem claim3_counterexample :
    headerCandidate pattern1 c3buf 0 = true ∧
    c3buf.length < 0 + 4 + byteAt c3buf 2 * 6 ∧
    find_vertex_patterns c3buf = ⟨[], true, ""⟩ :=
  ⟨by decide, by decide, by decide⟩

/-- C3 (amended): whenever the scan reaches a position `i` that the loop tests
(at least 5 bytes remain past `i`) at which a grammar's vertex header matches
with declared count `N` but fewer than `6·N` bytes follow the header, the scan
fails right there with the structural vertices error: the partially decoded
group is not appended, the scanner does not resume at any later offset, and
when this is the position reached from the start of the buffer the whole
parse fails with that error. -/
theorem claim3_truncated_vertex_block (d : List Nat) (i : Nat) (acc : List VGroup)
    (hc : i < d.length - 4)
    (hcand : headerCandidate pattern1 d i = true ∨ headerCandidate pattern2 d i = true)
    (htrunc : d.length < i + 4 + byteAt d (i + 2) * 6) :
    scanFrom d i acc = ⟨acc, false, "Corrupted or incomplete PCK file (vertices)."⟩ ∧
    (i = 0 → acc = [] →
      parse d = Except.error "Corrupted or incomplete PCK file (vertices).") := by
  have hscan : scanFrom d i acc =
      ⟨acc, false, "Corrupted or incomplete PCK file (vertices)."⟩ := by
    rcases hcand with hcand | hcand
    · obtain ⟨h1, h2, h3⟩ := headerCandidate_iff.mp hcand
      exact scanFrom_error1 hc (tryPattern_trunc h1 h2 h3 htrunc)
    · obtain ⟨h1, h2, h3⟩ := headerCandidate_iff.mp hcand
      have hnot1 : headerCandidate pattern1 d i = false := by
        rw [Bool.eq_false_iff]
        intro hcontra
        exact magic_distinct ((headerCandidate_iff.mp hcontra).1.symm.trans h1)
      exact scanFrom_error2 hc (tryPattern_eq_none hnot1) (tryPattern_trunc h1 h2 h3 htrunc)
  refine ⟨hscan, fun hi ha => ?_⟩
  subst hi
  subst ha
  have hfv : find_vertex_patterns d =
      ⟨[], false, "Corrupted or incomplete PCK file (vertices)."⟩ := hscan
  simp only [parse, hfv]
  rfl

theorem claim3_truncated_vertex_block_witness :
    scanFrom c3wbuf 0 [] = ⟨[], false, "Corrupted or incomplete PCK file (vertices)."⟩ ∧
    parse c3wbuf = Except.error "Corrupted or incomplete PCK file (vertices)." := by
  have h := claim3_truncated_vertex_block c3wbuf 0 [] (by decide) (Or.inl (by decide))
    (by decide)
  exact ⟨h.1, h.2 rfl rfl⟩

/-- C7 counterexample: on the 4-byte buffer `EE 00 00 69` a grammar's vertex
header matches at offset 0 and exactly 4 bytes remain there — so by the claim
the offset should be tested before the loop ends — yet the scan terminates at
once with success and no group, while testing that offset would have produced
the "Face pattern not found." error. -/
theorem claim7_counterexample :
    find_vertex_patterns c7buf = ⟨[], true, ""⟩ ∧
    ¬ (c7buf.length - 0 < 4) ∧
    headerCandidate pattern1 c7buf 0 = true ∧
    tryPattern "pattern1" pattern1 c7buf 0 =
      some (Except.error "Face pattern not found.") :=
  ⟨by decide, by decide, by decide, rfl⟩

/-- C7 (amended): the scan loop terminates — returning the groups accumulated
so far with success — as soon as at most 4 bytes remain past the current
position; only offsets with at least 5 remaining bytes are ever tested. -/
theorem claim7_termination_bound (d : List Nat) (i : Nat) (acc : List VGroup)
    (h : d.length ≤ i + 4) : scanFrom d i acc = ⟨acc, true, ""⟩ :=
  scanFrom_stop (by omega)

theorem claim7_termination_bound_witness :
    c7buf.length ≤ 0 + 4 ∧ scanFrom c7buf 0 [] = ⟨[], true, ""⟩ :=
  ⟨by decide, claim7_termination_bound c7buf 0 [] (by decide)⟩

theorem tryPattern_no_facesig {nm : String} {g : Grammar} {d : List Nat} {i : Nat}
    {uvs : List (Int × Int)} {pos_after_uv : Nat}
    (h1 : extract d i 2 = g.magic) (h2 : byteAt d (i + 2) ≤ 0x2A)
    (h3 : byteAt d (i + 3) = 0x69)
    (h4 : ¬ i + 4 + byteAt d (i + 2) * 6 > d.length)
    (huv : uvScan g d (byteAt d (i + 2)) (i + 4 + byteAt d (i + 2) * 6) =
      Except.ok (uvs, pos_after_uv))
    (hfind : findFrom d (g.face_magic ++ [byteAt d (i + 2), 0x6A]) pos_after_uv = none) :
    tryPattern nm g d i = some (Except.error "Face pattern not found.") := by
  rw [tryPattern, if_pos h1, if_pos h2, if_pos h3, if_neg h4, huv]
  dsimp only
  rw [hfind]

/-- C4: whenever the scan reaches a tested position `i` at which a grammar's
vertex header matches, the vertex block fits in the buffer, and the optional
UV step succeeds ending at `pos_after_uv`, but the grammar's face signature
(face magic, the same count byte, then `0x6A`) occurs nowhere at or after
`pos_after_uv`, the scan fails with the "Face pattern not found." error: the
group is not skipped, nothing later is scanned, and when this is the position
reached from the start of the buffer the whole parse fails with that error. -/
theorem claim4_face_signature_missing (d : List Nat) (i : Nat) (acc : List VGroup)
    (g : Grammar) (hc : i < d.length - 4)
    (hg : (g = pattern1 ∧ headerCandidate pattern1 d i = true) ∨
          (g = pattern2 ∧ headerCandidate pattern2 d i = true))
    (hvfit : i + 4 + byteAt d (i + 2) * 6 ≤ d.length)
    (uvs : List (Int × Int)) (pos_after_uv : Nat)
    (huv : uvScan g d (byteAt d (i + 2)) (i + 4 + byteAt d (i + 2) * 6) =
      Except.ok (uvs, pos_after_uv))
    (habs : ∀ p, pos_after_uv ≤ p → p + 4 ≤ d.length →
      extract d p 4 ≠ g.face_magic ++ [byteAt d (i + 2), 0x6A]) :
    scanFrom d i acc = ⟨acc, false, "Face pattern not found."⟩ ∧
    (i = 0 → acc = [] → parse d = Except.error "Face pattern not found.") := by
  have hscan : scanFrom d i acc = ⟨acc, false, "Face pattern not found."⟩ := by
    rcases hg with ⟨rfl, hcand⟩ | ⟨rfl, hcand⟩
    · obtain ⟨h1, h2, h3⟩ := headerCandidate_iff.mp hcand
      exact scanFrom_error1 hc
        (tryPattern_no_facesig h1 h2 h3 (by omega) huv (findFrom_eq_none habs))
    · obtain ⟨h1, h2, h3⟩ := headerCandidate_iff.mp hcand
      have hnot1 : headerCandidate pattern1 d i = false := by
        rw [Bool.eq_false_iff]
        intro hcontra
        exact magic_distinct ((headerCandidate_iff.mp hcontra).1.symm.trans h1)
      exact scanFrom_error2 hc (tryPattern_eq_none hnot1)
        (tryPattern_no_facesig h1 h2 h3 (by omega) huv (findFrom_eq_none habs))
  refine ⟨hscan, fun hi ha => ?_⟩
  subst hi
  subst ha
  have hfv : find_vertex_patterns d = ⟨[], false, "Face pattern not found."⟩ := hscan
  simp only [parse, hfv]
  rfl

theorem claim4_face_signature_missing_witness :
    scanFrom c4buf 0 [] = ⟨[], false, "Face pattern not found."⟩ ∧
    parse c4buf = Except.error "Face pattern not found." := by
  have h := claim4_face_signature_missing c4buf 0 [] pattern1 (by decide)
    (Or.inl ⟨rfl, by decide⟩) (by decide) [] 4 rfl
    (by
      intro p hp hfit
      have hlen : c4buf.length = 8 := rfl
      rw [hlen] at hfit
      have hp4 : p = 4 := by omega
      subst hp4
      decide)
  exact ⟨h.1, h.2 rfl rfl⟩

/-- C5: at a tested scan position whose first two bytes equal a grammar's
vertex prefix and whose fourth byte is `0x69`, the grammar yields a candidate
match (the pattern-loop body runs, producing a group or a fatal error) if and
only if the count byte is at most `0x2A`; with count byte `0x2B` the position
is a non-match and the scanner advances exactly one byte and continues,
raising no error. -/
theorem claim5_count_byte_boundary (nm : String) (g : Grammar) (d : List Nat)
    (i : Nat) (acc : List VGroup)
    (hg : g = pattern1 ∨ g = pattern2)
    (hc : i < d.length - 4)
    (h1 : extract d i 2 = g.magic) (h3 : byteAt d (i + 3) = 0x69) :
    ((tryPattern nm g d i).isSome = true ↔ byteAt d (i + 2) ≤ 0x2A) ∧
    (byteAt d (i + 2) = 0x2B → scanFrom d i acc = scanFrom d (i + 1) acc) := by
  constructor
  · constructor
    · intro hsome
      by_contra h2
      rw [tryPattern, if_pos h1, if_neg h2] at hsome
      simp at hsome
    · intro h2
      exact tryPattern_isSome h1 h2 h3
  · intro h2b
    have h2 : ¬ byteAt d (i + 2) ≤ 0x2A := by omega
    rcases hg with rfl | rfl
    · have hn1 : tryPattern "pattern1" pattern1 d i = none := by
        rw [tryPattern, if_pos h1, if_neg h2]
      have hn2 : tryPattern "pattern2" pattern2 d i = none := by
        apply tryPattern_eq_none
        rw [Bool.eq_false_iff]
        intro hcontra
        exact magic_distinct (h1.symm.trans (headerCandidate_iff.mp hcontra).1)
      exact scanFrom_skip hc hn1 hn2
    · have hn1 : tryPattern "pattern1" pattern1 d i = none := by
        apply tryPattern_eq_none
        rw [Bool.eq_false_iff]
        intro hcontra
        exact magic_distinct ((headerCandidate_iff.mp hcontra).1.symm.trans h1)
      have hn2 : tryPattern "pattern2" pattern2 d i = none := by
        rw [tryPattern, if_pos h1, if_neg h2]
      exact scanFrom_skip hc hn1 hn2

theorem claim5_count_byte_boundary_witness :
    ¬ ((tryPattern "pattern1" pattern1 c5buf 0).isSome = true) ∧
    scanFrom c5buf 0 [] = scanFrom c5buf 1 [] := by
  have h := claim5_count_byte_boundary "pattern1" pattern1 c5buf 0 [] (Or.inl rfl)
    (by decide) (by decide) (by decide)
  exact ⟨fun hsome => absurd (h.1.mp hsome) (by decide), h.2 (by decide)⟩

/-- C6 counterexample: scanning the 16-byte buffer holding two chained
count-0 groups succeeds and yields groups starting at 0 and 8.  The first
group's face signature is at offset 4, so its 6 consumed padding bytes are
offsets 8–13, and the second group's matched byte range begins at offset 8 —
inside the first group's padding — because for counts below 2 the cursor jump
`faces_start + (N-2)*3` lands before the end of the padding. -/
theorem claim6_counterexample :
    (find_vertex_patterns c6buf).parse_success = true ∧
    (find_vertex_patterns c6buf).vertex_groups.map
      (fun g => (g.start, g.faces_offset, g.XX)) = [(0, 4, 0), (8, 12, 0)] ∧
    4 + 4 ≤ 8 ∧ 8 < 4 + 4 + 6 :=
  ⟨by decide, by decide, by decide, by decide⟩

/-- C6 (amended): on a successful scan the groups appear in strictly
increasing start-offset order equal to discovery order, and every later group
starts at or after each earlier group's cursor-jump target
`faces_offset + 4 + 3·N` (the end of its face records).  For `N ≥ 2` that
target is the end of all the earlier group's consumed bytes; for `N ∈ {0,1}`
it lies inside the 6 padding bytes after the face signature, so a later group
may begin inside that padding. -/
theorem claim6_group_ordering (d : List Nat) (res : ScanResult)
    (hres : find_vertex_patterns d = res) (hsucc : res.parse_success = true) :
    res.vertex_groups.Pairwise
      (fun a b => a.start < b.start ∧ a.faces_offset + 4 + 3 * a.XX ≤ b.start) := by
  subst hres
  exact ChainFrom_pairwise (find_vertex_patterns_chain d)

theorem claim6_group_ordering_witness :
    (find_vertex_patterns c6buf).vertex_groups.Pairwise
      (fun a b => a.start < b.start ∧ a.faces_offset + 4 + 3 * a.XX ≤ b.start) :=
  claim6_group_ordering c6buf (find_vertex_patterns c6buf) rfl (by decide)

/-- C8: for the list of groups the scanner produces on any buffer, the
remapper translates each face's three 1-based local indices by
`global = local - 1 + base` and keeps every record: each remapped list is as
long as its source list, since every translated index already satisfies
`0 ≤ index < length of the global vertex array`, making the defensive drop
branch unreachable; the remapper is a total function, so it never raises. -/
theorem claim8_remap_in_bounds (d : List Nat) (mg : MeshGroup)
    (hmg : mg ∈ (remapGroups (find_vertex_patterns d).vertex_groups []).2) :
    mg.mesh_active_faces.length = mg.g.active_faces.length ∧
    mg.mesh_inactive_faces.length = mg.g.inactive_faces.length ∧
    ∀ t ∈ mg.mesh_active_faces ++ mg.mesh_inactive_faces,
      0 ≤ t.1 ∧
      t.1 < ((remapGroups (find_vertex_patterns d).vertex_groups []).1.length : Int) ∧
      0 ≤ t.2.1 ∧
      t.2.1 < ((remapGroups (find_vertex_patterns d).vertex_groups []).1.length : Int) ∧
      0 ≤ t.2.2 ∧
      t.2.2 < ((remapGroups (find_vertex_patterns d).vertex_groups []).1.length : Int) :=
  remapGroups_facts (find_vertex_patterns d).vertex_groups []
    (fun g hg => ChainFrom_mem_wf (find_vertex_patterns_chain d) hg) mg hmg

def c1mesh : MeshGroup := ⟨c1group, 0, [(0, 1, 2)], []⟩

theorem claim8_remap_in_bounds_witness :
    c1mesh.mesh_active_faces.length = c1mesh.g.active_faces.length ∧
    c1mesh.mesh_inactive_faces.length = c1mesh.g.inactive_faces.length :=
  ⟨(claim8_remap_in_bounds c1buf c1mesh (by decide)).1,
   (claim8_remap_in_bounds c1buf c1mesh (by decide)).2.1⟩

/-- C9: for every model the exported OBJ line list contains exactly as many
`vt` lines as `v` lines: a group whose UV count differs from its vertex count
contributes one `(0,0)` UV per vertex instead of its UVs, the assembled
global UV list is padded or truncated to the global vertex count, and export
is a total function that never fails for missing UVs. -/
theorem claim9_export_uv_count (m : Model) :
    count_vt_lines (export_lines m) = count_v_lines (export_lines m) := by
  rw [export_lines, count_vt_lines, count_v_lines]
  rw [List.countP_append, List.countP_append, List.countP_append, List.countP_append]
  have hv_vt : (m.vertices.map vLine).countP
      (fun s => s.data.take 3 == ['v', 't', ' ']) = 0 := by
    apply List.countP_eq_zero.mpr
    intro s hs
    obtain ⟨v, hv, rfl⟩ := List.mem_map.mp hs
    obtain ⟨r, hr⟩ := vLine_data v
    simp [hr]
  have hv_v : (m.vertices.map vLine).countP
      (fun s => s.data.take 2 == ['v', ' ']) = (m.vertices.map vLine).length := by
    apply List.countP_eq_length.mpr
    intro s hs
    obtain ⟨v, hv, rfl⟩ := List.mem_map.mp hs
    obtain ⟨r, hr⟩ := vLine_data v
    simp [hr]
  have huv_vt : ∀ uvs : List (Int × Int), (uvs.map vtLine).countP
      (fun s => s.data.take 3 == ['v', 't', ' ']) = (uvs.map vtLine).length := by
    intro uvs
    apply List.countP_eq_length.mpr
    intro s hs
    obtain ⟨uv, huv, rfl⟩ := List.mem_map.mp hs
    obtain ⟨r, hr⟩ := vtLine_data uv
    simp [hr]
  have huv_v : ∀ uvs : List (Int × Int), (uvs.map vtLine).countP
      (fun s => s.data.take 2 == ['v', ' ']) = 0 := by
    intro uvs
    apply List.countP_eq_zero.mpr
    intro s hs
    obtain ⟨uv, huv, rfl⟩ := List.mem_map.mp hs
    obtain ⟨r, hr⟩ := vtLine_data uv
    simp [hr]
  have hfl : ∀ s ∈ m.groups.flatMap fun mg => mg.mesh_active_faces.map fLine,
      ∃ t, s = fLine t := by
    intro s hs
    obtain ⟨mg, hmg, hs⟩ := List.mem_flatMap.mp hs
    obtain ⟨t, ht, rfl⟩ := List.mem_map.mp hs
    exact ⟨t, rfl⟩
  have hf_vt : (m.groups.flatMap fun mg => mg.mesh_active_faces.map fLine).countP
      (fun s => s.data.take 3 == ['v', 't', ' ']) = 0 := by
    apply List.countP_eq_zero.mpr
    intro s hs
    obtain ⟨t, rfl⟩ := hfl s hs
    obtain ⟨r, hr⟩ := fLine_data t
    simp [hr]
  have hf_v : (m.groups.flatMap fun mg => mg.mesh_active_faces.map fLine).countP
      (fun s => s.data.take 2 == ['v', ' ']) = 0 := by
    apply List.countP_eq_zero.mpr
    intro s hs
    obtain ⟨t, rfl⟩ := hfl s hs
    obtain ⟨r, hr⟩ := fLine_data t
    simp [hr]
  rw [hv_vt, hv_v, huv_vt, huv_v, hf_vt, hf_v]
  simp [fit_uvs_length]

theorem scanFrom_no_candidates {d : List Nat}
    (h : ∀ j, headerCandidate pattern1 d j = false ∧ headerCandidate pattern2 d j = false) :
    ∀ (n i : Nat) (acc : List VGroup), d.length - 4 - i ≤ n →
      scanFrom d i acc = ⟨acc, true, ""⟩ := by
  intro n
  induction n with
  | zero => intro i acc hb; exact scanFrom_stop (by omega)
  | succ m ih =>
    intro i acc hb
    by_cases hc : i < d.length - 4
    · rw [scanFrom_skip hc (tryPattern_eq_none (h i).1) (tryPattern_eq_none (h i).2)]
      exact ih (i + 1) acc (by omega)
    · exact scanFrom_stop hc

/-- C10: any buffer in which no position matches either grammar's vertex
header — including the empty buffer and every buffer shorter than 5 bytes —
parses successfully into the empty model: zero groups, an empty global vertex
array and no faces; the absence of groups is never reported as an error. -/
theorem claim10_no_match_empty_model (d : List Nat)
    (h : (∀ j, headerCandidate pattern1 d j = false ∧
        headerCandidate pattern2 d j = false) ∨ d.length < 5) :
    find_vertex_patterns d = ⟨[], true, ""⟩ ∧ parse d = Except.ok ⟨[], []⟩ := by
  have hscan : find_vertex_patterns d = ⟨[], true, ""⟩ := by
    rcases h with h | h
    · exact scanFrom_no_candidates h d.length 0 [] (by omega)
    · exact scanFrom_stop (by omega)
  refine ⟨hscan, ?_⟩
  simp only [parse, hscan]
  rfl

theorem claim10_no_match_empty_model_witness :
    find_vertex_patterns [] = ⟨[], true, ""⟩ ∧
    parse ([] : List Nat) = Except.ok ⟨[], []⟩ :=
  claim10_no_match_empty_model [] (Or.inr (by decide))
